import Mathlib

/- Lean model of `lib/beautifier.py` from the cheat.sh repository.

   The pure core (cleanup pass, line classifier, reflow engine, block
   segmenter, the `_beautify` orchestration and the `beautify` cache wrapper)
   is embedded directly from the Python source.  The external collaborators
   (the stdlib `textwrap.fill`, the `VIM_NAME` lookup table imported from
   `languages_data`, the vim subprocess behind `_run_vim_script`, the redis
   cache client and the md5 digest) are passed in as explicit function
   parameters, mirroring their interface boundaries. -/

/-- Python whitespace characters, the set stripped by `str.strip()` on byte
    strings (space, tab, newline, carriage return, vertical tab, form feed). -/
def isPySpace (c : Char) : Bool :=
  c = ' ' || c = '\t' || c = '\n' || c = '\r' || c = Char.ofNat 11 || c = Char.ofNat 12

/-- Model of Python `s.strip()` on the character list of a string: drop
    leading and trailing whitespace. -/
def stripChars (cs : List Char) : List Char :=
  ((cs.dropWhile isPySpace).reverse.dropWhile isPySpace).reverse

/-- Test `line.strip() == ''`, i.e. the line consists of whitespace only. -/
def blank (s : String) : Bool := s.data.all isPySpace

/-- Model of Python `str.splitlines()` for byte strings: split on `"\r\n"`,
    `"\n"` and `"\r"`; a trailing line terminator does not produce a final
    empty line.  The accumulator holds the current line reversed. -/
def slGo : List Char → List Char → List String
  | [], cur => [String.mk cur.reverse]
  | '\r' :: '\n' :: rest, cur =>
      String.mk cur.reverse :: (if rest.isEmpty then [] else slGo rest [])
  | '\n' :: rest, cur =>
      String.mk cur.reverse :: (if rest.isEmpty then [] else slGo rest [])
  | '\r' :: rest, cur =>
      String.mk cur.reverse :: (if rest.isEmpty then [] else slGo rest [])
  | c :: rest, cur => slGo rest (c :: cur)

/-- Python `text.splitlines()`: the empty string yields no lines at all. -/
def pySplitlines (s : String) : List String :=
  if s.data.isEmpty then [] else slGo s.data []

/-- Python `x.rstrip('\n')`: remove trailing newline characters. -/
def pyRstripNL (s : String) : String :=
  String.mk (s.data.reverse.dropWhile (fun c => c = '\n')).reverse

/-- Collapse every maximal run of blank lines to one empty line and keep
    non-blank lines as they are.  This is the
    `chain.from_iterable([(list(x[1]) if x[0] else ['']) for x in groupby(lines, key=...)])`
    step of `_cleanup_lines`: a group of lines whose key `x.strip() != ''` is
    false contributes `['']`, every other group is kept unchanged.  The Bool
    state records whether the scan is currently inside a blank group (in which
    case its single `''` has already been emitted). -/
def collapseGo : Bool → List String → List String
  | _, [] => []
  | inBlank, a :: rest =>
      if blank a then
        if inBlank then collapseGo true rest
        else "" :: collapseGo true rest
      else a :: collapseGo false rest

/-- Collapse runs of blank lines starting outside any blank group. -/
def collapseBlanks (l : List String) : List String := collapseGo false l

/-- Remove blank lines at the end of the list (the `lines[:end+1]` loop of
    `_cleanup_lines`). -/
def dropTrailingBlanks (l : List String) : List String :=
  (l.reverse.dropWhile blank).reverse

/-- Model of `_cleanup_lines`: drop leading blank lines, drop trailing blank
    lines, collapse internal runs of blank lines to one empty line.  The early
    returns of the Python code on the empty list coincide with this
    composition, every stage mapping `[]` to `[]`. -/
def _cleanup_lines (l : List String) : List String :=
  collapseBlanks (dropTrailingBlanks (l.dropWhile blank))

/-- Test whether the stripped line starts with `"* "`. -/
def startsWithStar : List Char → Bool
  | '*' :: ' ' :: _ => true
  | _ => false

/-- Test `re.match(r'[0-9]+\.', s)`: one or more ASCII digits followed by a
    dot at the start of the string. -/
def matchesOrderedList (cs : List Char) : Bool :=
  !(cs.takeWhile Char.isDigit).isEmpty &&
    (match cs.dropWhile Char.isDigit with
     | '.' :: _ => true
     | _ => false)

/-- Test `line.startswith('   ')` (three spaces) on the raw line. -/
def threeSpaces : List Char → Bool
  | ' ' :: ' ' :: ' ' :: _ => true
  | _ => false

/-- Model of the inner `_line_type` of `_classify_lines`: `-1` for a blank
    line, `0` for text (including the whitelisted list markers), `1` for a
    line starting with three spaces. -/
def _line_type (line : String) : Int :=
  if blank line then -1
  else if startsWithStar (stripChars line.data) || matchesOrderedList (stripChars line.data) then 0
  else if threeSpaces line.data then 1
  else 0

/-- Forward in-place scan `for i in range(len(t)-1): if cond(t[i], t[i+1]): t[i+1] = v`.
    At step `i` the value `t[i]` is read after the update possibly made at the
    previous step, while `t[i+1]` is still original; the recursion therefore
    passes the possibly updated element on as the new head. -/
def fwdGo (cond : Int → Int → Bool) (v : Int) : Int → List Int → List Int
  | a, [] => [a]
  | a, b :: rest => a :: fwdGo cond v (if cond a b then v else b) rest

/-- Forward scan over a whole list; the separated head argument of `fwdGo`
    carries the possibly updated current element. -/
def fwdScan (cond : Int → Int → Bool) (v : Int) : List Int → List Int
  | [] => []
  | a :: rest => fwdGo cond v a rest

/-- Backward in-place scan `for i in reversed(range(len(t)-1)): if cond(t[i], t[i+1]): t[i] = v`.
    At step `i` the value `t[i+1]` is read after the update possibly made at
    the previous (higher-index) step, so the suffix is rewritten first. -/
def bwdScan (cond : Int → Int → Bool) (v : Int) : List Int → List Int
  | [] => []
  | [a] => [a]
  | a :: b :: rest =>
      match bwdScan cond v (b :: rest) with
      | [] => [a]
      | c :: rest2 => (if cond a c then v else a) :: c :: rest2

/-- Pass 2 of `_classify_lines`, forward direction: a blank line directly after
    a code line receives the intermediate absorbed tag `-2`. -/
def absorbFwd : List Int → List Int := fwdScan (fun a b => a == 1 && b == -1) (-2)

/-- Pass 2 of `_classify_lines`, backward direction: a blank line directly
    before a code line receives the intermediate absorbed tag `-2`. -/
def absorbBwd : List Int → List Int := bwdScan (fun a c => a == -1 && c == 1) (-2)

/-- Pass 3 of `_classify_lines`, forward direction: a blank line directly
    after a text line becomes text. -/
def textFwd : List Int → List Int := fwdScan (fun a b => a == 0 && b == -1) 0

/-- Pass 3 of `_classify_lines`, backward direction: a blank line directly
    before a text line becomes text. -/
def textBwd : List Int → List Int := bwdScan (fun a c => a == -1 && c == 0) 0

/-- One iteration of the `while changed` loop of pass 3: one forward scan
    followed by one backward scan. -/
def stepB (ts : List Int) : List Int := textBwd (textFwd ts)

/-- Number of still-undefined (`-1`) labels.  Every changing iteration of
    pass 3 strictly decreases this count, which bounds the loop. -/
def countUndef (ts : List Int) : Nat := ts.count (-1)

/-- Fuel-bounded iteration of `stepB`, stopping early at a fixed point exactly
    as the `while changed` loop does (`changed` is set iff some assignment
    fired, and every assignment turns a `-1` into a `0`, hence changes the
    list). -/
def passBGo : Nat → List Int → List Int
  | 0, ts => ts
  | fuel+1, ts =>
      let ts2 := stepB ts
      if ts2 = ts then ts else passBGo fuel ts2

/-- The `while changed` loop of pass 3.  The fuel `countUndef ts + 1` is
    provably sufficient: each non-final iteration strictly decreases
    `countUndef`, so the fixed point is reached before the fuel runs out
    (theorems `passB_fix` and `passB_fuel_irrelevant` below), making this
    bounded model extensionally equal to the unbounded loop. -/
def passB (ts : List Int) : List Int := passBGo (countUndef ts + 1) ts

/-- Model of `_classify_lines`: per-line typing, the two absorption scans,
    resolution of `-2` to code, the pass-3 fixed-point loop, and resolution of
    the remaining `-1` to code. -/
def _classify_lines (lines : List String) : List Int :=
  let ts := lines.map _line_type
  let ts := absorbFwd ts
  let ts := absorbBwd ts
  let ts := ts.map (fun x => if x = -2 then 1 else x)
  let ts := passB ts
  ts.map (fun x => if x = -1 then 1 else x)

/-- Python value passed as the `unindent_code` argument: either a bool or an
    int (the code distinguishes `True` from an int via `is True` and tests
    truthiness via `if unindent_code:`). -/
inductive PyUnindent
  | bool (b : Bool)
  | int (n : Int)
deriving DecidableEq

/-- Python truthiness of the `unindent_code` value. -/
def PyUnindent.truthy : PyUnindent → Bool
  | .bool b => b
  | .int n => n != 0

/-- The expression `3 if unindent_code is True else unindent_code`, evaluated
    only when the value is truthy. -/
def PyUnindent.shiftOf : PyUnindent → Int
  | .bool _ => 3
  | .int n => n

/-- Model of the inner `_unindent_code` of `_wrap_lines`: with shift `-1` a
    single leading space is added to non-empty lines; with a positive shift
    that many leading spaces are stripped when present; otherwise the line is
    returned unchanged. -/
def _unindent_code (line : String) (shift : Int) : String :=
  if shift = -1 ∧ line ≠ "" then " " ++ line
  else if 0 < shift ∧ List.replicate shift.toNat ' ' <+: line.data then
    String.mk (line.data.drop shift.toNat)
  else line

/-- Model of `_wrap_lines`.  `fill` is the external `textwrap.fill(x).splitlines()`
    collaborator.  Code lines are unindented (shift 3 for `unindent_code is
    True`, the int itself for a truthy int, `-1` otherwise); text lines emit
    one empty line when blank and then the filled segments. -/
def _wrap_lines (fill : String → List String) (lines_classes : List (Int × String))
    (unindent_code : PyUnindent) : List (Int × String) :=
  lines_classes.flatMap fun lt =>
    if lt.1 = 1 then
      [(lt.1, _unindent_code lt.2 (if unindent_code.truthy then unindent_code.shiftOf else -1))]
    else
      (if blank lt.2 then [(lt.1, "")] else []) ++ (fill lt.2).map fun l => (lt.1, l)

/-- Model of `itertools.groupby(lines_classes, key=lambda x: x[0])` as consumed
    by the source: maximal runs of pairs with equal first component, each run
    keeping its label and the list of its second components. -/
def groupGo : Int → List String → List (Int × String) → List (Int × List String)
  | k, acc, [] => [(k, acc.reverse)]
  | k, acc, p :: rest =>
      if p.1 == k then groupGo k (p.2 :: acc) rest
      else (k, acc.reverse) :: groupGo p.1 [p.2] rest

/-- Group a classified document into maximal runs of equal label. -/
def groupByLabel : List (Int × String) → List (Int × List String)
  | [] => []
  | p :: rest => groupGo p.1 [p.2] rest

/-- Python `"\n".join(lines)`. -/
def joinNL (l : List String) : String := String.intercalate "\n" l

/-- Python `output.endswith('\n')`. -/
def endsWithNL (s : String) : Bool :=
  match s.data.reverse with
  | '\n' :: _ => true
  | _ => false

/-- Model of `_language_name`: `VIM_NAME.get(name, name)`, with the lookup
    table (imported from `languages_data`, outside this file's source) passed
    in as a collaborator. -/
def _language_name (vimName : String → Option String) (name : String) : String :=
  (vimName name).getD name

/-- A single-quote character as a string, used in the generated vim script. -/
def squo : String := String.singleton (Char.ofNat 39)

/-- One `NERDComment` call line of the generated vim script. -/
def nerdLine (bs be : Nat) (what : String) : String :=
  toString bs ++ "," ++ toString be ++ " call NERDComment(1, " ++ squo ++ what ++ squo ++ ")"

/-- The block loop of `_commenting_script`: each text block prepends its
    uncomment line and then its comment line (the two `insert(0, ...)` calls
    put the uncomment line first), so later blocks end up before earlier ones. -/
def commentGo (filetype : String) : List (Int × List String) → Nat → List String → List String
  | [], _, acc => acc
  | b :: bs, block_start, acc =>
      let block_end := block_start + b.2.length - 1
      let acc :=
        if b.1 = 0 then
          nerdLine block_start block_end "uncomment" ::
            nerdLine block_start block_end
              (if block_end - block_start < 1 ∨ filetype = "ruby" then "comment" else "sexy") ::
            acc
        else acc
      commentGo filetype bs (block_end + 1) acc

/-- Model of `_commenting_script`: the filetype line first, the accumulated
    per-block lines, and `wq` last. -/
def _commenting_script (vimName : String → Option String)
    (lines_blocks : List (Int × List String)) (filetype : String) : List String :=
  ("set ft=" ++ _language_name vimName filetype) :: commentGo filetype lines_blocks 1 [] ++ ["wq"]

/-- Model of `_beautify`.  `runVim` is the external `_run_vim_script`
    collaborator (script lines and text lines in, rewritten text out). -/
def _beautify (fill : String → List String) (vimName : String → Option String)
    (runVim : List String → List String → String)
    (text filetype : String) (add_comments remove_text : Bool) : String :=
  let lines := ((pySplitlines text).map pyRstripNL)
  let lines := _cleanup_lines lines
  let lines_classes := List.zip (_classify_lines lines) lines
  let lines_classes := _wrap_lines fill lines_classes (PyUnindent.bool (add_comments || remove_text))
  if remove_text then
    let lines := (lines_classes.filter fun p => p.1 == 1).map Prod.snd
    let lines := _cleanup_lines lines
    let output := joinNL lines
    if endsWithNL output then output else output ++ "\n"
  else if !add_comments then
    joinNL (lines_classes.map Prod.snd)
  else
    runVim (_commenting_script vimName (groupByLabel lines_classes) filetype)
      (lines_classes.map Prod.snd)

/-- Model of `code_blocks` (default arguments `wrap_lines=False`,
    `unindent_code=False` are passed explicitly).  Note: unlike `_beautify`,
    the source classifies the raw lines without running `_cleanup_lines`. -/
def code_blocks (fill : String → List String) (text : String)
    (wrap_lines : Bool) (unindent_code : PyUnindent) : List (Int × String) :=
  let lines := (pySplitlines text).map pyRstripNL
  let lines_classes := List.zip (_classify_lines lines) lines
  let lines_classes :=
    if wrap_lines then _wrap_lines fill lines_classes unindent_code else lines_classes
  (groupByLabel lines_classes).map fun g => (g.1, joinNL g.2 ++ "\n")

/-- The two option keys `beautify` filters out of its `options` dict; `none`
    models an absent key, `some b` a present key with a boolean value. -/
structure BeautyOptions where
  add_comments : Option Bool
  remove_text : Option Bool
deriving DecidableEq

/-- Error raised by the redis cache collaborator. -/
inductive RedisErr
  | connection
deriving DecidableEq

/-- Python truthiness of the value returned by `REDIS.get` (`None` and the
    empty string are falsy). -/
def pyTruthy : Option String → Bool
  | none => false
  | some s => s != ""

/-- Model of `beautify`: filter the options, short-circuit on an empty options
    dict, consult the cache, recompute via `_beautify` on a miss and store the
    answer.  The cache collaborator may raise (`Except.error`); the source has
    no handler around either cache call, so such an error propagates. -/
def beautify (fill : String → List String) (vimName : String → Option String)
    (runVim : List String → List String → String)
    (cacheGet : String → Except RedisErr (Option String))
    (cacheSet : String → String → Except RedisErr Unit)
    (md5hex : String → String)
    (text lang : String) (options : Option BeautyOptions) : Except RedisErr String :=
  let opts := options.getD ⟨none, none⟩
  if opts.add_comments.isNone ∧ opts.remove_text.isNone then Except.ok text
  else
    let mode := (if opts.add_comments.getD false then "c" else "") ++
                (if opts.remove_text.getD false then "q" else "")
    let digest := "t:" ++ md5hex text ++ ":" ++ lang ++ ":" ++ mode
    match cacheGet digest with
    | Except.error e => Except.error e
    | Except.ok answer =>
        if pyTruthy answer then Except.ok (answer.getD "")
        else
          let ans := _beautify fill vimName runVim text lang
                      (opts.add_comments.getD false) (opts.remove_text.getD false)
          match cacheSet digest ans with
          | Except.error e => Except.error e
          | Except.ok _ => Except.ok ans

/-- Replace whitespace characters by plain spaces, as `textwrap` munging does. -/
def mungeChar (c : Char) : Char := if isPySpace c then ' ' else c

/-- Split a character list into maximal space-free words, discarding spaces;
    the accumulator holds the current word reversed. -/
def wordsGo : List Char → List Char → List (List Char)
  | cur, [] => if cur.isEmpty then [] else [cur.reverse]
  | cur, c :: rest =>
      if c = ' ' then
        if cur.isEmpty then wordsGo [] rest else cur.reverse :: wordsGo [] rest
      else wordsGo (c :: cur) rest

/-- Split a character list into its space-separated words. -/
def splitWordsCh (cs : List Char) : List (List Char) := wordsGo [] cs

/-- Simplified executable model of the external `textwrap.fill(x).splitlines()`
    collaborator (Python default width 70): whitespace is normalised to single
    spaces and words are wrapped greedily.  The stdlib's hyphen and long-word
    handling is not reproduced; every theorem below either quantifies over the
    fill collaborator or evaluates it only on inputs where this model and the
    stdlib agree or where the filled output is discarded. -/
def fill70 (s : String) : List String :=
  match (splitWordsCh (s.data.map mungeChar)).map String.mk with
  | [] => []
  | w :: ws =>
      let p := ws.foldl (fun (p : List String × String) w =>
        if p.2.length + 1 + w.length ≤ 70 then (p.1, p.2 ++ " " ++ w)
        else (p.1 ++ [p.2], w)) ([], w)
      p.1 ++ [p.2]

/-- Collaborator instance: an empty `VIM_NAME` table (all lookups fall back to
    the name itself). -/
def vimNone (_ : String) : Option String := none

/-- Collaborator instance: a vim runner returning a fixed marker string. -/
def runVimFixed (_script _textlines : List String) : String := "VIMOUT"

/-- Collaborator instance: a fixed digest function. -/
def md5Fixed (_ : String) : String := "d41"

/-- Collaborator instance: a cache whose lookups always miss. -/
def cacheMissGet (_ : String) : Except RedisErr (Option String) := Except.ok none

/-- Collaborator instance: a cache whose stores always succeed. -/
def cacheOkSet (_ _ : String) : Except RedisErr Unit := Except.ok ()

/-- Collaborator instance: a cache whose lookups raise a connection error. -/
def cacheFailGet (_ : String) : Except RedisErr (Option String) :=
  Except.error RedisErr.connection

/-- Collaborator instance: a cache whose stores raise a connection error. -/
def cacheFailSet (_ _ : String) : Except RedisErr Unit :=
  Except.error RedisErr.connection

/-- Relation between a label list and the result of one in-place scan: every
    element is either unchanged or was `-1` (blank) and has been rewritten to
    the scan's value `v`.  All four scans of `_classify_lines` only ever
    rewrite elements equal to `-1`. -/
def scanRel (v : Int) (x y : Int) : Prop := y = x ∨ (x = -1 ∧ y = v)

/-- The first line, if any, is not blank. -/
def headOk : List String → Bool
  | [] => true
  | a :: _ => !blank a

/-- The last line, if any, is not blank. -/
def lastOk : List String → Bool
  | [] => true
  | [a] => !blank a
  | _ :: b :: rest => lastOk (b :: rest)

/-- No two consecutive lines are both blank. -/
def noAdjBlank : List String → Bool
  | a :: b :: rest => (!(blank a && blank b)) && noAdjBlank (b :: rest)
  | _ => true

/-- Every blank line is the empty string. -/
def allBlankEmpty (l : List String) : Bool := l.all (fun s => !blank s || s == "")

/-- Classified document exactly as `code_blocks` builds it: the raw
    (rstripped) lines zipped with their classification, with no cleanup. -/
def classifiedDoc (text : String) : List (Int × String) :=
  let lines := (pySplitlines text).map pyRstripNL
  List.zip (_classify_lines lines) lines

/-- Classified document exactly as `_beautify` builds it: the lines are passed
    through `_cleanup_lines` before classification. -/
def cleanedClassifiedDoc (text : String) : List (Int × String) :=
  let lines := _cleanup_lines ((pySplitlines text).map pyRstripNL)
  List.zip (_classify_lines lines) lines

/-- Everything `_beautify` does after building its classified document;
    `_beautify` is definitionally this function applied to
    `cleanedClassifiedDoc text`. -/
def beautifyFromDoc (fill : String → List String) (vimName : String → Option String)
    (runVim : List String → List String → String)
    (filetype : String) (add_comments remove_text : Bool)
    (doc : List (Int × String)) : String :=
  let lines_classes := _wrap_lines fill doc (PyUnindent.bool (add_comments || remove_text))
  if remove_text then
    let lines := (lines_classes.filter fun p => p.1 == 1).map Prod.snd
    let lines := _cleanup_lines lines
    let output := joinNL lines
    if endsWithNL output then output else output ++ "\n"
  else if !add_comments then
    joinNL (lines_classes.map Prod.snd)
  else
    runVim (_commenting_script vimName (groupByLabel lines_classes) filetype)
      (lines_classes.map Prod.snd)

/-- The passthrough transformation (no flags set): cleanup, classification,
    reflow with unindent off, join with newlines. -/
def passthroughOut (fill : String → List String) (text : String) : String :=
  joinNL ((_wrap_lines fill (cleanedClassifiedDoc text) (PyUnindent.bool false)).map Prod.snd)

/-- Modelled from the spec: `code_blocks` as the data-flow section describes
    it, with the Cleanup Pass applied to the raw lines before classification
    ("raw text → Cleanup Pass → Line Classifier …; the two entry points share
    the first three stages").  This refinement target follows the spec's
    words and is compared against `code_blocks`, which is taken from the
    source. -/
def code_blocks_spec (fill : String → List String) (text : String)
    (wrap_lines : Bool) (unindent_code : PyUnindent) : List (Int × String) :=
  let lines_classes := cleanedClassifiedDoc text
  let lines_classes :=
    if wrap_lines then _wrap_lines fill lines_classes unindent_code else lines_classes
  (groupByLabel lines_classes).map fun g => (g.1, joinNL g.2 ++ "\n")

theorem scanRel_refl (v x : Int) : scanRel v x x := Or.inl rfl

theorem forall2_scanRel_refl (v : Int) : ∀ l : List Int, List.Forall₂ (scanRel v) l l
  | [] => List.Forall₂.nil
  | a :: rest => List.Forall₂.cons (scanRel_refl v a) (forall2_scanRel_refl v rest)

theorem fwdGo_rel (cond : Int → Int → Bool) (v : Int)
    (hc : ∀ a b, cond a b = true → b = -1) :
    ∀ (l : List Int) (a a' : Int), scanRel v a a' →
      List.Forall₂ (scanRel v) (a :: l) (fwdGo cond v a' l)
  | [], _, _, h => List.Forall₂.cons h List.Forall₂.nil
  | b :: rest, a, a', h => by
      rw [fwdGo]
      refine List.Forall₂.cons h (fwdGo_rel cond v hc rest b _ ?_)
      by_cases hcond : cond a' b = true
      · rw [if_pos hcond]
        exact Or.inr ⟨hc a' b hcond, rfl⟩
      · rw [if_neg hcond]
        exact Or.inl rfl

theorem fwdScan_rel (cond : Int → Int → Bool) (v : Int)
    (hc : ∀ a b, cond a b = true → b = -1) :
    ∀ l : List Int, List.Forall₂ (scanRel v) l (fwdScan cond v l)
  | [] => List.Forall₂.nil
  | a :: rest => fwdGo_rel cond v hc rest a a (scanRel_refl v a)

theorem bwdScan_rel (cond : Int → Int → Bool) (v : Int)
    (hc : ∀ a c, cond a c = true → a = -1) :
    ∀ l : List Int, List.Forall₂ (scanRel v) l (bwdScan cond v l)
  | [] => List.Forall₂.nil
  | [a] => List.Forall₂.cons (scanRel_refl v a) List.Forall₂.nil
  | a :: b :: rest => by
      have ih := bwdScan_rel cond v hc (b :: rest)
      rw [bwdScan]
      cases hres : bwdScan cond v (b :: rest) with
      | nil => rw [hres] at ih; cases ih
      | cons c rest2 =>
          rw [hres] at ih
          refine List.Forall₂.cons ?_ ih
          by_cases hcond : cond a c = true
          · rw [if_pos hcond]
            exact Or.inr ⟨hc a c hcond, rfl⟩
          · rw [if_neg hcond]
            exact Or.inl rfl

theorem absorbFwd_rel (l : List Int) : List.Forall₂ (scanRel (-2)) l (absorbFwd l) :=
  fwdScan_rel _ _ (fun a b h => by
    simp only [Bool.and_eq_true, beq_iff_eq] at h; exact h.2) l

theorem absorbBwd_rel (l : List Int) : List.Forall₂ (scanRel (-2)) l (absorbBwd l) :=
  bwdScan_rel _ _ (fun a c h => by
    simp only [Bool.and_eq_true, beq_iff_eq] at h; exact h.1) l

theorem textFwd_rel (l : List Int) : List.Forall₂ (scanRel 0) l (textFwd l) :=
  fwdScan_rel _ _ (fun a b h => by
    simp only [Bool.and_eq_true, beq_iff_eq] at h; exact h.2) l

theorem textBwd_rel (l : List Int) : List.Forall₂ (scanRel 0) l (textBwd l) :=
  bwdScan_rel _ _ (fun a c h => by
    simp only [Bool.and_eq_true, beq_iff_eq] at h; exact h.1) l

theorem scanRel0_trans {x y z : Int} (h1 : scanRel 0 x y) (h2 : scanRel 0 y z) :
    scanRel 0 x z := by
  rcases h1 with h1 | ⟨hx, hy⟩
  · rw [h1] at h2; exact h2
  · subst hx; subst hy
    rcases h2 with h2 | ⟨h2, _⟩
    · rw [h2]; exact Or.inr ⟨rfl, rfl⟩
    · exact absurd h2 (by decide)

theorem forall2_scanRel0_trans :
    ∀ {a b c : List Int}, List.Forall₂ (scanRel 0) a b → List.Forall₂ (scanRel 0) b c →
      List.Forall₂ (scanRel 0) a c := by
  intro a b c h1 h2
  induction h1 generalizing c with
  | nil => cases h2; exact List.Forall₂.nil
  | cons hr _ ih =>
      cases h2 with
      | cons hr2 htail2 => exact List.Forall₂.cons (scanRel0_trans hr hr2) (ih htail2)

theorem stepB_rel (ts : List Int) : List.Forall₂ (scanRel 0) ts (stepB ts) :=
  forall2_scanRel0_trans (textFwd_rel ts) (textBwd_rel (textFwd ts))

theorem forall2_mem_right {R : Int → Int → Prop} :
    ∀ {l l' : List Int}, List.Forall₂ R l l' → ∀ {y : Int}, y ∈ l' → ∃ x ∈ l, R x y := by
  intro l l' h
  induction h with
  | nil => intro y hy; cases hy
  | cons hr _ ih =>
      intro y hy
      rcases List.mem_cons.1 hy with rfl | hy2
      · exact ⟨_, List.mem_cons_self _ _, hr⟩
      · rcases ih hy2 with ⟨x, hx, hxr⟩
        exact ⟨x, List.mem_cons_of_mem _ hx, hxr⟩

theorem count_le_of_rel (v : Int) (hv : v ≠ -1) :
    ∀ {l l' : List Int}, List.Forall₂ (scanRel v) l l' →
      l'.count (-1) ≤ l.count (-1) := by
  intro l l' h
  induction h with
  | nil => exact Nat.le_refl _
  | @cons a b l1 l2 hr _ ih =>
      rcases hr with h1 | ⟨h2, h3⟩
      · subst h1
        simp only [List.count_cons]
        omega
      · subst h2
        have e1 : (b :: l2).count (-1) = l2.count (-1) := by
          simp [List.count_cons, h3, hv]
        have e2 : ((-1 : Int) :: l1).count (-1) = l1.count (-1) + 1 := by
          simp [List.count_cons]
        omega

theorem count_lt_of_rel (v : Int) (hv : v ≠ -1) :
    ∀ {l l' : List Int}, List.Forall₂ (scanRel v) l l' → l' ≠ l →
      l'.count (-1) < l.count (-1) := by
  intro l l' h
  induction h with
  | nil => intro hne; exact absurd rfl hne
  | @cons a b l1 l2 hr htail ih =>
      intro hne
      rcases hr with h1 | ⟨h2, h3⟩
      · subst h1
        have hne2 : l2 ≠ l1 := fun he => hne (by rw [he])
        have := ih hne2
        simp only [List.count_cons]
        omega
      · subst h2
        have hle := count_le_of_rel v hv htail
        have e1 : (b :: l2).count (-1) = l2.count (-1) := by
          simp [List.count_cons, h3, hv]
        have e2 : ((-1 : Int) :: l1).count (-1) = l1.count (-1) + 1 := by
          simp [List.count_cons]
        omega

theorem passBGo_fix : ∀ (n : Nat) (ts : List Int), countUndef ts < n →
    stepB (passBGo n ts) = passBGo n ts
  | 0, _, h => absurd h (Nat.not_lt_zero _)
  | n+1, ts, h => by
      rw [passBGo]
      by_cases hfix : stepB ts = ts
      · rw [if_pos hfix]; exact hfix
      · rw [if_neg hfix]
        apply passBGo_fix n (stepB ts)
        have hlt := count_lt_of_rel 0 (by decide) (stepB_rel ts) hfix
        simp only [countUndef] at h ⊢
        omega

theorem passBGo_mono : ∀ (n k : Nat) (ts : List Int), countUndef ts < n →
    passBGo (n + k) ts = passBGo n ts
  | 0, _, _, h => absurd h (Nat.not_lt_zero _)
  | n+1, k, ts, h => by
      have harith : n + 1 + k = (n + k) + 1 := by omega
      rw [harith, passBGo, passBGo]
      by_cases hfix : stepB ts = ts
      · rw [if_pos hfix, if_pos hfix]
      · rw [if_neg hfix, if_neg hfix]
        have hlt := count_lt_of_rel 0 (by decide) (stepB_rel ts) hfix
        apply passBGo_mono n k (stepB ts)
        simp only [countUndef] at h hlt ⊢
        omega

theorem passBGo_iterate : ∀ (n : Nat) (ts : List Int), countUndef ts < n →
    passBGo n ts = stepB^[n] ts
  | 0, _, h => absurd h (Nat.not_lt_zero _)
  | n+1, ts, h => by
      rw [passBGo]
      by_cases hfix : stepB ts = ts
      · rw [if_pos hfix, Function.iterate_fixed hfix]
      · rw [if_neg hfix]
        have hlt := count_lt_of_rel 0 (by decide) (stepB_rel ts) hfix
        rw [passBGo_iterate n (stepB ts) (by simp only [countUndef] at h hlt ⊢; omega)]
        rw [Function.iterate_succ_apply]

theorem passB_fix (ts : List Int) : stepB (passB ts) = passB ts :=
  passBGo_fix (countUndef ts + 1) ts (Nat.lt_succ_self _)

theorem passB_fuel_irrelevant (k : Nat) (ts : List Int) :
    passBGo (countUndef ts + 1 + k) ts = passB ts :=
  passBGo_mono (countUndef ts + 1) k ts (Nat.lt_succ_self _)

theorem passBGo_rel : ∀ (n : Nat) (ts : List Int),
    List.Forall₂ (scanRel 0) ts (passBGo n ts)
  | 0, ts => forall2_scanRel_refl 0 ts
  | n+1, ts => by
      rw [passBGo]
      by_cases hfix : stepB ts = ts
      · rw [if_pos hfix]; exact forall2_scanRel_refl 0 ts
      · rw [if_neg hfix]
        exact forall2_scanRel0_trans (stepB_rel ts) (passBGo_rel n (stepB ts))

theorem passB_rel (ts : List Int) : List.Forall₂ (scanRel 0) ts (passB ts) :=
  passBGo_rel (countUndef ts + 1) ts

theorem _line_type_cases (s : String) :
    _line_type s = -1 ∨ _line_type s = 0 ∨ _line_type s = 1 := by
  unfold _line_type
  split
  · exact Or.inl rfl
  · split
    · exact Or.inr (Or.inl rfl)
    · split
      · exact Or.inr (Or.inr rfl)
      · exact Or.inr (Or.inl rfl)

/-- C6: the classifier's fixed-point repair pass B terminates on every input:
    the number of possible label changes (`countUndef`) is bounded by the
    document length, the loop result equals plain iteration of the scan step
    for `length + 1` rounds, and that result is a genuine fixed point of the
    scan step (one more scan changes nothing), also on pathological inputs
    such as an all-blank document. -/
theorem claim_C6 (ts : List Int) :
    countUndef ts ≤ ts.length ∧
    passB ts = stepB^[ts.length + 1] ts ∧
    stepB (passB ts) = passB ts := by
  have hcnt : countUndef ts ≤ ts.length := List.count_le_length _ _
  refine ⟨hcnt, ?_, passB_fix ts⟩
  have h1 : passBGo (ts.length + 1) ts = passB ts := by
    have harith : ts.length + 1 = countUndef ts + 1 + (ts.length - countUndef ts) := by
      omega
    rw [harith]
    exact passB_fuel_irrelevant _ ts
  rw [← h1]
  exact passBGo_iterate (ts.length + 1) ts (by omega)

/-- C2: classification returns one final label per input line, and every label
    is TEXT (0) or CODE (1); the intermediate UNDEFINED (-1) value (and the
    absorbed tag -2) never survives to the output. -/
theorem claim_C2 (lines : List String) :
    (_classify_lines lines).length = lines.length ∧
    (_classify_lines lines).all (fun x => x == 0 || x == 1) = true := by
  have hdef : _classify_lines lines =
      (passB ((absorbBwd (absorbFwd (lines.map _line_type))).map
        (fun x => if x = -2 then 1 else x))).map (fun x => if x = -1 then 1 else x) := rfl
  have m0 : ∀ x ∈ lines.map _line_type, x = -1 ∨ x = 0 ∨ x = 1 := by
    intro x hx
    rcases List.mem_map.1 hx with ⟨s, _, rfl⟩
    exact _line_type_cases s
  have m1 : ∀ x ∈ absorbFwd (lines.map _line_type),
      x = -1 ∨ x = 0 ∨ x = 1 ∨ x = -2 := by
    intro x hx
    rcases forall2_mem_right (absorbFwd_rel _) hx with ⟨w, hw, hr⟩
    rcases hr with rfl | ⟨_, rfl⟩
    · rcases m0 _ hw with h | h | h
      · exact Or.inl h
      · exact Or.inr (Or.inl h)
      · exact Or.inr (Or.inr (Or.inl h))
    · exact Or.inr (Or.inr (Or.inr rfl))
  have m2 : ∀ x ∈ absorbBwd (absorbFwd (lines.map _line_type)),
      x = -1 ∨ x = 0 ∨ x = 1 ∨ x = -2 := by
    intro x hx
    rcases forall2_mem_right (absorbBwd_rel _) hx with ⟨w, hw, hr⟩
    rcases hr with rfl | ⟨_, rfl⟩
    · exact m1 _ hw
    · exact Or.inr (Or.inr (Or.inr rfl))
  have m3 : ∀ x ∈ (absorbBwd (absorbFwd (lines.map _line_type))).map
      (fun x => if x = -2 then 1 else x), x = -1 ∨ x = 0 ∨ x = 1 := by
    intro x hx
    rcases List.mem_map.1 hx with ⟨w, hw, rfl⟩
    by_cases hw2 : w = -2
    · rw [if_pos hw2]; exact Or.inr (Or.inr rfl)
    · rw [if_neg hw2]
      rcases m2 _ hw with h | h | h | h
      · exact Or.inl h
      · exact Or.inr (Or.inl h)
      · exact Or.inr (Or.inr h)
      · exact absurd h hw2
  have m4 : ∀ x ∈ passB ((absorbBwd (absorbFwd (lines.map _line_type))).map
      (fun x => if x = -2 then 1 else x)), x = -1 ∨ x = 0 ∨ x = 1 := by
    intro x hx
    rcases forall2_mem_right (passB_rel _) hx with ⟨w, hw, hr⟩
    rcases hr with rfl | ⟨_, rfl⟩
    · exact m3 _ hw
    · exact Or.inr (Or.inl rfl)
  constructor
  · rw [hdef, List.length_map]
    have l5 := (passB_rel ((absorbBwd (absorbFwd (lines.map _line_type))).map
      (fun x => if x = -2 then 1 else x))).length_eq
    have l3 := (absorbBwd_rel (absorbFwd (lines.map _line_type))).length_eq
    have l2 := (absorbFwd_rel (lines.map _line_type)).length_eq
    simp only [List.length_map] at *
    omega
  · rw [hdef, List.all_eq_true]
    intro x hx
    rcases List.mem_map.1 hx with ⟨y, hy, rfl⟩
    rcases m4 _ hy with h | h | h
    · rw [if_pos h]; decide
    · rw [if_neg (by rw [h]; decide), h]; decide
    · rw [if_neg (by rw [h]; decide), h]; decide

/-- C4: on `["intro text", "", "    code"]` the classifier labels line 0 TEXT
    and resolves the blank line 1 to CODE (absorbed by the following code line
    in repair pass A, which runs before pass B's text propagation), not TEXT. -/
theorem claim_C4 : _classify_lines ["intro text", "", "    code"] = [0, 1, 1] := by
  decide

theorem headOk_dropWhile (l : List String) : headOk (l.dropWhile blank) = true := by
  induction l with
  | nil => rfl
  | cons a rest ih =>
      by_cases h : blank a = true
      · rw [List.dropWhile_cons_of_pos h]; exact ih
      · rw [List.dropWhile_cons_of_neg (by simp [h])]
        simp only [headOk, Bool.not_eq_true] at h ⊢
        simp [h]

theorem dropWhile_of_headOk {l : List String} (h : headOk l = true) :
    l.dropWhile blank = l := by
  cases l with
  | nil => rfl
  | cons a rest =>
      simp only [headOk, Bool.not_eq_true'] at h
      exact List.dropWhile_cons_of_neg (by simp [h])

theorem headOk_append {X : List String} (Y : List String) (h : X ≠ []) :
    headOk (X ++ Y) = headOk X := by
  cases X with
  | nil => exact absurd rfl h
  | cons a rest => rfl

theorem lastOk_eq_headOk_reverse : ∀ l : List String, lastOk l = headOk l.reverse
  | [] => rfl
  | [_] => rfl
  | a :: b :: rest => by
      have ih := lastOk_eq_headOk_reverse (b :: rest)
      show lastOk (b :: rest) = headOk ((a :: b :: rest).reverse)
      rw [ih]
      have hsplit : (a :: b :: rest).reverse = (b :: rest).reverse ++ [a] := by simp
      rw [hsplit, headOk_append _ (by simp)]

theorem lastOk_dropTrailingBlanks (l : List String) :
    lastOk (dropTrailingBlanks l) = true := by
  rw [lastOk_eq_headOk_reverse]
  unfold dropTrailingBlanks
  rw [List.reverse_reverse]
  exact headOk_dropWhile _

theorem dropTrailingBlanks_of_lastOk {l : List String} (h : lastOk l = true) :
    dropTrailingBlanks l = l := by
  rw [lastOk_eq_headOk_reverse] at h
  unfold dropTrailingBlanks
  rw [dropWhile_of_headOk h, List.reverse_reverse]

theorem dropWhile_blank_suffix : ∀ l : List String, l.dropWhile blank <:+ l
  | [] => List.suffix_refl []
  | a :: rest => by
      by_cases h : blank a = true
      · rw [List.dropWhile_cons_of_pos h]
        exact (dropWhile_blank_suffix rest).trans (List.suffix_cons a rest)
      · rw [List.dropWhile_cons_of_neg (by simp [h])]

theorem dropTrailingBlanks_front (l : List String) : dropTrailingBlanks l <+: l := by
  unfold dropTrailingBlanks
  rcases dropWhile_blank_suffix l.reverse with ⟨s, hs⟩
  exact ⟨s.reverse, by rw [← List.reverse_append, hs, List.reverse_reverse]⟩

theorem headOk_of_front {l₁ l₂ : List String} (h : l₁ <+: l₂) (h2 : headOk l₂ = true) :
    headOk l₁ = true := by
  rcases h with ⟨t, rfl⟩
  cases l₁ with
  | nil => rfl
  | cons a rest => exact h2

theorem noAdjBlank_cons {M : List String} (a : String)
    (hM : noAdjBlank M = true) (h : blank a = false ∨ headOk M = true) :
    noAdjBlank (a :: M) = true := by
  cases M with
  | nil => rfl
  | cons c rest =>
      show ((!(blank a && blank c)) && noAdjBlank (c :: rest)) = true
      rcases h with h | h
      · simp [h, hM]
      · simp only [headOk, Bool.not_eq_true'] at h
        simp [h, hM]

theorem collapseGo_inv : ∀ l : List String,
    allBlankEmpty (collapseGo false l) = true ∧ noAdjBlank (collapseGo false l) = true ∧
    allBlankEmpty (collapseGo true l) = true ∧ noAdjBlank (collapseGo true l) = true ∧
    headOk (collapseGo true l) = true
  | [] => ⟨rfl, rfl, rfl, rfl, rfl⟩
  | a :: rest => by
      obtain ⟨if1, if2, it1, it2, it3⟩ := collapseGo_inv rest
      by_cases h : blank a = true
      · have e1 : collapseGo false (a :: rest) = "" :: collapseGo true rest := by
          simp [collapseGo, h]
        have e2 : collapseGo true (a :: rest) = collapseGo true rest := by
          simp [collapseGo, h]
        refine ⟨?_, ?_, ?_, ?_, ?_⟩
        · rw [e1]
          simp only [allBlankEmpty, List.all_cons, Bool.and_eq_true] at it1 ⊢
          exact ⟨by simp, it1⟩
        · rw [e1]
          exact noAdjBlank_cons _ it2 (Or.inr it3)
        · rw [e2]; exact it1
        · rw [e2]; exact it2
        · rw [e2]; exact it3
      · have hb : blank a = false := by simpa using h
        have e1 : collapseGo false (a :: rest) = a :: collapseGo false rest := by
          simp [collapseGo, hb]
        have e2 : collapseGo true (a :: rest) = a :: collapseGo false rest := by
          simp [collapseGo, hb]
        refine ⟨?_, ?_, ?_, ?_, ?_⟩
        · rw [e1]
          simp only [allBlankEmpty, List.all_cons, Bool.and_eq_true] at if1 ⊢
          exact ⟨by simp [hb], if1⟩
        · rw [e1]; exact noAdjBlank_cons _ if2 (Or.inl hb)
        · rw [e2]
          simp only [allBlankEmpty, List.all_cons, Bool.and_eq_true] at if1 ⊢
          exact ⟨by simp [hb], if1⟩
        · rw [e2]; exact noAdjBlank_cons _ if2 (Or.inl hb)
        · rw [e2]; simp [headOk, hb]

theorem collapse_headOk {l : List String} (h : headOk l = true) :
    headOk (collapseGo false l) = true := by
  cases l with
  | nil => rfl
  | cons a rest =>
      simp only [headOk, Bool.not_eq_true'] at h
      simp [collapseGo, h, headOk]

theorem lastOk_cons_of_ne {M : List String} (x : String) (h : M ≠ []) :
    lastOk (x :: M) = lastOk M := by
  cases M with
  | nil => exact absurd rfl h
  | cons c rest => rfl

theorem collapseGo_ne_nil_of_lastOk : ∀ (l : List String) (b : Bool),
    lastOk l = true → l ≠ [] → collapseGo b l ≠ []
  | [], _, _, hne => absurd rfl hne
  | [a], b, hl, _ => by
      simp only [lastOk, Bool.not_eq_true'] at hl
      cases b <;> simp [collapseGo, hl]
  | a :: c :: rest, b, hl, _ => by
      have hl2 : lastOk (c :: rest) = true := hl
      by_cases h : blank a = true
      · cases b with
        | true =>
            have e : collapseGo true (a :: c :: rest) = collapseGo true (c :: rest) := by
              simp [collapseGo, h]
            rw [e]
            exact collapseGo_ne_nil_of_lastOk (c :: rest) true hl2 (by simp)
        | false => simp [collapseGo, h]
      · have hb : blank a = false := by simpa using h
        cases b <;> simp [collapseGo, hb]

theorem collapse_lastOk : ∀ (l : List String) (b : Bool),
    lastOk l = true → lastOk (collapseGo b l) = true
  | [], _, _ => rfl
  | [a], b, hl => by
      simp only [lastOk, Bool.not_eq_true'] at hl
      cases b <;> simp [collapseGo, hl, lastOk]
  | a :: c :: rest, b, hl => by
      have hl2 : lastOk (c :: rest) = true := hl
      by_cases h : blank a = true
      · have hM := collapse_lastOk (c :: rest) true hl2
        have hne := collapseGo_ne_nil_of_lastOk (c :: rest) true hl2 (by simp)
        cases b with
        | true =>
            have e : collapseGo true (a :: c :: rest) = collapseGo true (c :: rest) := by
              simp [collapseGo, h]
            rw [e]; exact hM
        | false =>
            have e : collapseGo false (a :: c :: rest) = "" :: collapseGo true (c :: rest) := by
              simp [collapseGo, h]
            rw [e, lastOk_cons_of_ne _ hne]
            exact hM
      · have hb : blank a = false := by simpa using h
        have hM := collapse_lastOk (c :: rest) false hl2
        have hne := collapseGo_ne_nil_of_lastOk (c :: rest) false hl2 (by simp)
        have e : collapseGo b (a :: c :: rest) = a :: collapseGo false (c :: rest) := by
          cases b <;> simp [collapseGo, hb]
        rw [e, lastOk_cons_of_ne _ hne]
        exact hM

theorem noAdjBlank_tail {a : String} {rest : List String}
    (h : noAdjBlank (a :: rest) = true) : noAdjBlank rest = true := by
  cases rest with
  | nil => rfl
  | cons c r2 =>
      have h2 : ((!(blank a && blank c)) && noAdjBlank (c :: r2)) = true := h
      rw [Bool.and_eq_true] at h2
      exact h2.2

theorem collapseGo_fix : ∀ l : List String, noAdjBlank l = true → allBlankEmpty l = true →
    collapseGo false l = l ∧ (headOk l = true → collapseGo true l = l)
  | [], _, _ => ⟨rfl, fun _ => rfl⟩
  | a :: rest, hadj, hemp => by
      have hadj2 := noAdjBlank_tail hadj
      have hemp2 : allBlankEmpty rest = true := by
        simp only [allBlankEmpty, List.all_cons, Bool.and_eq_true] at hemp
        exact hemp.2
      obtain ⟨ihf, iht⟩ := collapseGo_fix rest hadj2 hemp2
      by_cases h : blank a = true
      · have ha : a = "" := by
          simp only [allBlankEmpty, List.all_cons, Bool.and_eq_true] at hemp
          have h3 := hemp.1
          simp only [h, Bool.not_true, Bool.false_or, beq_iff_eq] at h3
          exact h3
        have hrest : collapseGo true rest = rest := by
          cases rest with
          | nil => rfl
          | cons c r2 =>
              apply iht
              have h4 : ((!(blank a && blank c)) && noAdjBlank (c :: r2)) = true := hadj
              rw [Bool.and_eq_true] at h4
              have hc := h4.1
              simp only [h, Bool.true_and, Bool.not_eq_true'] at hc
              simp [headOk, hc]
        constructor
        · have e : collapseGo false (a :: rest) = "" :: collapseGo true rest := by
            simp [collapseGo, h]
          rw [e, hrest, ha]
        · intro hh
          simp only [headOk, h] at hh
          cases hh
      · have hb : blank a = false := by simpa using h
        constructor
        · have e : collapseGo false (a :: rest) = a :: collapseGo false rest := by
            simp [collapseGo, hb]
          rw [e, ihf]
        · intro _
          have e : collapseGo true (a :: rest) = a :: collapseGo false rest := by
            simp [collapseGo, hb]
          rw [e, ihf]

theorem dropWhile_all_blank {l : List String} (h : l.all blank = true) :
    l.dropWhile blank = [] := by
  induction l with
  | nil => rfl
  | cons a rest ih =>
      simp only [List.all_cons, Bool.and_eq_true] at h
      rw [List.dropWhile_cons_of_pos h.1]
      exact ih h.2

/-- C3: the cleanup pass is idempotent; its result has no leading blank line,
    no trailing blank line and no two consecutive blank lines; and cleanup of
    an empty or all-blank input is the empty sequence (never an error: the
    function is total). -/
theorem claim_C3 (L : List String) :
    _cleanup_lines (_cleanup_lines L) = _cleanup_lines L ∧
    headOk (_cleanup_lines L) = true ∧
    lastOk (_cleanup_lines L) = true ∧
    noAdjBlank (_cleanup_lines L) = true ∧
    (L.all blank = true → _cleanup_lines L = []) := by
  have hdef : _cleanup_lines L = collapseGo false (dropTrailingBlanks (L.dropWhile blank)) :=
    rfl
  set L1 := L.dropWhile blank with hL1
  set L2 := dropTrailingBlanks L1 with hL2
  have hh1 : headOk L1 = true := headOk_dropWhile L
  have hh2 : headOk L2 = true := headOk_of_front (dropTrailingBlanks_front L1) hh1
  have hl2 : lastOk L2 = true := lastOk_dropTrailingBlanks L1
  obtain ⟨hie, hia, _, _, _⟩ := collapseGo_inv L2
  have hM_head : headOk (collapseGo false L2) = true := collapse_headOk hh2
  have hM_last : lastOk (collapseGo false L2) = true := collapse_lastOk L2 false hl2
  refine ⟨?_, ?_, ?_, ?_, ?_⟩
  · rw [hdef]
    show collapseGo false
      (dropTrailingBlanks ((collapseGo false L2).dropWhile blank)) = collapseGo false L2
    rw [dropWhile_of_headOk hM_head, dropTrailingBlanks_of_lastOk hM_last]
    exact (collapseGo_fix _ hia hie).1
  · rw [hdef]; exact hM_head
  · rw [hdef]; exact hM_last
  · rw [hdef]; exact hia
  · intro hall
    have hnil : L1 = [] := by rw [hL1]; exact dropWhile_all_blank hall
    rw [hdef, hL2, hnil]
    rfl

/-- Witness for C3: the theorem applied at the concrete all-blank input
    `["  ", ""]`, discharging the all-blank hypothesis of its last conjunct. -/
theorem claim_C3_witness : _cleanup_lines ["  ", ""] = [] :=
  (claim_C3 ["  ", ""]).2.2.2.2 (by decide)

theorem groupGo_flatten : ∀ (l : List (Int × String)) (k : Int) (acc : List String),
    (groupGo k acc l).flatMap (fun g => g.2.map (fun s => (g.1, s))) =
      acc.reverse.map (fun s => (k, s)) ++ l
  | [], k, acc => by simp [groupGo]
  | p :: rest, k, acc => by
      rw [groupGo]
      by_cases h : (p.1 == k) = true
      · rw [if_pos h]
        rw [groupGo_flatten rest k (p.2 :: acc)]
        have hk : p.1 = k := by simpa using h
        simp [← hk]
      · rw [if_neg h]
        simp only [List.flatMap_cons]
        rw [groupGo_flatten rest p.1 [p.2]]
        simp

theorem groupGo_chain : ∀ (l : List (Int × String)) (k : Int) (acc : List String),
    List.Chain' (fun g h => g.1 ≠ h.1) (groupGo k acc l) ∧
      ∀ g ∈ (groupGo k acc l).head?, g.1 = k
  | [], k, acc => by
      constructor
      · simp [groupGo]
      · intro g hg
        simp only [groupGo, List.head?_cons, Option.mem_def, Option.some.injEq] at hg
        rw [← hg]
  | p :: rest, k, acc => by
      rw [groupGo]
      by_cases h : (p.1 == k) = true
      · rw [if_pos h]
        have ih := groupGo_chain rest k (p.2 :: acc)
        have hk : p.1 = k := by simpa using h
        exact ⟨ih.1, fun g hg => ih.2 g hg⟩
      · rw [if_neg h]
        have ih := groupGo_chain rest p.1 [p.2]
        constructor
        · rw [List.chain'_cons']
          refine ⟨?_, ih.1⟩
          intro g hg
          rw [ih.2 g hg]
          intro hkp
          have hk2 : k = p.1 := hkp
          exact h (by simp only [beq_iff_eq]; exact hk2.symm)
        · intro g hg
          simp only [List.head?_cons, Option.mem_def, Option.some.injEq] at hg
          rw [← hg]

/-- C7: the block segmenter groups a classified document into blocks such that
    no two adjacent blocks share a label, the block line counts sum to the
    total number of (label, line) pairs, and re-flattening the blocks yields
    the document back in original order. -/
theorem claim_C7 (l : List (Int × String)) :
    List.Chain' (fun g h => g.1 ≠ h.1) (groupByLabel l) ∧
    ((groupByLabel l).map (fun g => g.2.length)).sum = l.length ∧
    (groupByLabel l).flatMap (fun g => g.2.map (fun s => (g.1, s))) = l := by
  have hflat : (groupByLabel l).flatMap (fun g => g.2.map (fun s => (g.1, s))) = l := by
    cases l with
    | nil => rfl
    | cons p rest =>
        rw [groupByLabel, groupGo_flatten]
        simp
  refine ⟨?_, ?_, hflat⟩
  · cases l with
    | nil => simp [groupByLabel]
    | cons p rest => exact (groupGo_chain rest p.1 [p.2]).1
  · have hlen := congrArg List.length hflat
    rw [List.length_flatMap] at hlen
    have hmap : List.map (List.length ∘ fun g => List.map (fun s => (g.1, s)) g.2)
        (groupByLabel l) = List.map (fun g => g.2.length) (groupByLabel l) := by
      congr 1
      funext g
      simp [Function.comp, List.length_map]
    rw [hmap] at hlen
    exact hlen

theorem _beautify_eq_fromDoc (fill : String → List String) (vN : String → Option String)
    (rV : List String → List String → String) (text ft : String) (ac rt : Bool) :
    _beautify fill vN rV text ft ac rt =
      beautifyFromDoc fill vN rV ft ac rt (cleanedClassifiedDoc text) := rfl

/-- C5 counterexample: on the input `"\nhello\n"` (a leading blank line, which
    cleanup would remove) `code_blocks` returns a block containing the blank
    line, while the spec-modelled variant with the Cleanup Pass before
    classification does not — so the two entry points do not share the cleanup
    stage. -/
theorem claim_C5_counterexample :
    code_blocks fill70 "\nhello\n" false (PyUnindent.bool false) = [(0, "\nhello\n")] ∧
    code_blocks_spec fill70 "\nhello\n" false (PyUnindent.bool false) = [(0, "hello\n")] ∧
    code_blocks fill70 "\nhello\n" false (PyUnindent.bool false) ≠
      code_blocks_spec fill70 "\nhello\n" false (PyUnindent.bool false) :=
  ⟨by decide, by decide, by decide⟩

/-- C5 amended: `_beautify` applies the Cleanup Pass before classification (its
    classified document is `cleanedClassifiedDoc`), but `code_blocks` does
    not — it classifies the raw rstripped lines directly (`classifiedDoc`);
    only the classification, reflow and segmentation stages are shared. -/
theorem claim_C5_amended :
    (∀ (fill : String → List String) (text : String) (w : Bool) (u : PyUnindent),
      code_blocks fill text w u =
        (groupByLabel (if w then _wrap_lines fill (classifiedDoc text) u
          else classifiedDoc text)).map (fun g => (g.1, joinNL g.2 ++ "\n"))) ∧
    (∀ (fill : String → List String) (vN : String → Option String)
        (rV : List String → List String → String) (text ft : String) (ac rt : Bool),
      _beautify fill vN rV text ft ac rt =
        beautifyFromDoc fill vN rV ft ac rt (cleanedClassifiedDoc text)) :=
  ⟨fun _ _ _ _ => rfl, fun _ _ _ _ _ _ _ => rfl⟩

/-- C8 counterexample: with both flags set, `_beautify` performs the
    remove-text transformation (here `" x = 1\n"`), not the comment-insertion
    transformation (which would return the external editor's output, here the
    marker `"VIMOUT"`). -/
theorem claim_C8_counterexample :
    _beautify fill70 vimNone runVimFixed "    x = 1\n" "python" true true = " x = 1\n" ∧
    _beautify fill70 vimNone runVimFixed "    x = 1\n" "python" true false = "VIMOUT" ∧
    (" x = 1\n" : String) ≠ "VIMOUT" :=
  ⟨by decide, by decide, by decide⟩

/-- C8 amended: when both `add_comments` and `remove_text` are set, text
    removal has precedence: the result is identical to calling with
    `remove_text` alone, for every input and every collaborator. -/
theorem claim_C8_amended (fill : String → List String) (vN : String → Option String)
    (rV : List String → List String → String) (text ft : String) :
    _beautify fill vN rV text ft true true = _beautify fill vN rV text ft false true := by
  simp [_beautify]

/-- C9 counterexample: a raising cache lookup aborts `beautify` — the call
    returns the cache error instead of recomputing the transformed result. -/
theorem claim_C9_counterexample :
    beautify fill70 vimNone runVimFixed cacheFailGet cacheOkSet md5Fixed
      "    x = 1\n" "python" (some ⟨none, some true⟩) =
      Except.error RedisErr.connection := rfl

/-- C9 amended: the source has no handler around either cache call, so
    whenever the filtered options are non-empty, a raising cache read aborts
    `beautify` with that error, and on a cache miss a raising cache write also
    aborts it (the computed answer is lost). -/
theorem claim_C9_amended (fill : String → List String) (vN : String → Option String)
    (rV : List String → List String → String)
    (cs : String → String → Except RedisErr Unit) (md5 : String → String)
    (text lang : String) (oa ob : Option Bool)
    (h : oa.isSome = true ∨ ob.isSome = true) :
    beautify fill vN rV cacheFailGet cs md5 text lang (some ⟨oa, ob⟩) =
        Except.error RedisErr.connection ∧
    beautify fill vN rV cacheMissGet cacheFailSet md5 text lang (some ⟨oa, ob⟩) =
        Except.error RedisErr.connection := by
  cases oa with
  | none =>
      cases ob with
      | none => simp at h
      | some b => exact ⟨rfl, rfl⟩
  | some a => exact ⟨rfl, rfl⟩

/-- Witness for C9's amended claim at concrete collaborators and options. -/
theorem claim_C9_witness :
    beautify fill70 vimNone runVimFixed cacheFailGet cacheOkSet md5Fixed "    x = 1\n"
        "python" (some ⟨none, some true⟩) = Except.error RedisErr.connection ∧
    beautify fill70 vimNone runVimFixed cacheMissGet cacheFailSet md5Fixed "    x = 1\n"
        "python" (some ⟨none, some true⟩) = Except.error RedisErr.connection :=
  claim_C9_amended fill70 vimNone runVimFixed cacheOkSet md5Fixed "    x = 1\n" "python"
    none (some true) (Or.inr rfl)

theorem _beautify_passthrough (fill : String → List String) (vN : String → Option String)
    (rV : List String → List String → String) (text lang : String) :
    _beautify fill vN rV text lang false false = passthroughOut fill text := by
  rw [_beautify_eq_fromDoc]
  simp [beautifyFromDoc, passthroughOut]

theorem beautify_miss (fill : String → List String) (vN : String → Option String)
    (rV : List String → List String → String) (md5 : String → String)
    (text lang : String) (oa ob : Option Bool)
    (h : ¬(oa.isNone = true ∧ ob.isNone = true)) :
    beautify fill vN rV cacheMissGet cacheOkSet md5 text lang (some ⟨oa, ob⟩) =
      Except.ok (_beautify fill vN rV text lang (oa.getD false) (ob.getD false)) := by
  simp only [beautify, Option.getD_some]
  rw [if_neg h]
  simp [cacheMissGet, pyTruthy, cacheOkSet]

/-- C10: a missing or empty options dict is the identity transform, but a
    non-empty options dict whose flags are all false is not: `beautify` then
    runs the full passthrough pipeline (cleanup, classification, reflow that
    adds one leading space to non-empty code lines, join), which in general
    changes the text — as at the concrete input `"    x = 1\n"`. -/
theorem claim_C10 :
    (∀ (fill : String → List String) (vN : String → Option String)
        (rV : List String → List String → String)
        (cg : String → Except RedisErr (Option String))
        (cs : String → String → Except RedisErr Unit) (md5 : String → String)
        (text lang : String),
      beautify fill vN rV cg cs md5 text lang none = Except.ok text) ∧
    (∀ (fill : String → List String) (vN : String → Option String)
        (rV : List String → List String → String)
        (cg : String → Except RedisErr (Option String))
        (cs : String → String → Except RedisErr Unit) (md5 : String → String)
        (text lang : String),
      beautify fill vN rV cg cs md5 text lang (some ⟨none, none⟩) = Except.ok text) ∧
    (∀ (fill : String → List String) (vN : String → Option String)
        (rV : List String → List String → String) (md5 : String → String)
        (text lang : String),
      beautify fill vN rV cacheMissGet cacheOkSet md5 text lang (some ⟨some false, none⟩) =
        Except.ok (passthroughOut fill text)) ∧
    (∀ (fill : String → List String) (vN : String → Option String)
        (rV : List String → List String → String) (md5 : String → String)
        (text lang : String),
      beautify fill vN rV cacheMissGet cacheOkSet md5 text lang
          (some ⟨some false, some false⟩) = Except.ok (passthroughOut fill text)) ∧
    beautify fill70 vimNone runVimFixed cacheMissGet cacheOkSet md5Fixed
        "    x = 1\n" "python" (some ⟨some false, none⟩) ≠ Except.ok "    x = 1\n" := by
  refine ⟨fun _ _ _ _ _ _ _ _ => rfl, fun _ _ _ _ _ _ _ _ => rfl, ?_, ?_, ?_⟩
  · intro fill vN rV md5 text lang
    rw [beautify_miss fill vN rV md5 text lang (some false) none (by simp)]
    simp only [Option.getD_some, Option.getD_none]
    rw [_beautify_passthrough]
  · intro fill vN rV md5 text lang
    rw [beautify_miss fill vN rV md5 text lang (some false) (some false) (by simp)]
    simp only [Option.getD_some]
    rw [_beautify_passthrough]
  · rw [beautify_miss fill70 vimNone runVimFixed md5Fixed "    x = 1\n" "python"
      (some false) none (by simp)]
    intro hc
    have hs : _beautify fill70 vimNone runVimFixed "    x = 1\n" "python"
        ((some false).getD false) ((none : Option Bool).getD false) = "    x = 1\n" := by
      injection hc
    exact absurd hs (by decide)

theorem filter_label_map_ne (k : Int) (hk : (k == 1) = false) (ls : List String) :
    (ls.map (fun l => (k, l))).filter (fun p => p.1 == 1) = [] := by
  induction ls with
  | nil => rfl
  | cons a rest ih => simp [List.filter_cons, hk, ih]

/-- C1 counterexample: the remove-text transformation on the spec's input
    keeps one leading space on each code line (the default unindent shift is
    3 while the code is indented by 4 spaces), so the output is
    `" x = 1\n y = 2\n"`, not the claimed `"x = 1\ny = 2\n"`. -/
theorem claim_C1_counterexample :
    _beautify fill70 vimNone runVimFixed
        "Some explanation.\n\n    x = 1\n    y = 2\n\nMore text.\n" "python" false true =
      " x = 1\n y = 2\n" ∧
    (" x = 1\n y = 2\n" : String) ≠ "x = 1\ny = 2\n" :=
  ⟨by decide, by decide⟩

/-- C1 amended: for every fill collaborator (the filled text lines are
    discarded by the CODE filter) the remove-text transformation of
    `"Some explanation.\n\n    x = 1\n    y = 2\n\nMore text.\n"` produces
    exactly `" x = 1\n y = 2\n"`: surrounding text removed, blank-line cleanup
    applied, and three of the four leading spaces stripped per default shift. -/
theorem claim_C1_amended (fill : String → List String) (vN : String → Option String)
    (rV : List String → List String → String) :
    _beautify fill vN rV "Some explanation.\n\n    x = 1\n    y = 2\n\nMore text.\n"
      "python" false true = " x = 1\n y = 2\n" := by
  have hdoc : cleanedClassifiedDoc "Some explanation.\n\n    x = 1\n    y = 2\n\nMore text.\n" =
      [(0, "Some explanation."), (1, ""), (1, "    x = 1"), (1, "    y = 2"),
        (1, ""), (0, "More text.")] := by decide
  rw [_beautify_eq_fromDoc, hdoc]
  have hwrap : _wrap_lines fill
      [(0, "Some explanation."), (1, ""), (1, "    x = 1"), (1, "    y = 2"),
        (1, ""), (0, "More text.")] (PyUnindent.bool true) =
      (fill "Some explanation.").map (fun l => ((0 : Int), l)) ++
        ((1, "") :: (1, " x = 1") :: (1, " y = 2") :: (1, "") ::
          (fill "More text.").map (fun l => ((0 : Int), l))) := by
    have hb1 : blank "Some explanation." = false := by decide
    have hb2 : blank "More text." = false := by decide
    have hu1 : _unindent_code "" (3 : Int) = "" := by decide
    have hu2 : _unindent_code "    x = 1" (3 : Int) = " x = 1" := by decide
    have hu3 : _unindent_code "    y = 2" (3 : Int) = " y = 2" := by decide
    simp [_wrap_lines, PyUnindent.truthy, PyUnindent.shiftOf, hb1, hb2, hu1, hu2, hu3]
  have hfil : ((_wrap_lines fill
      [(0, "Some explanation."), (1, ""), (1, "    x = 1"), (1, "    y = 2"),
        (1, ""), (0, "More text.")] (PyUnindent.bool true)).filter
      (fun p => p.1 == 1)).map Prod.snd = ["", " x = 1", " y = 2", ""] := by
    rw [hwrap]
    simp [List.filter_append, filter_label_map_ne 0 (by decide), List.filter_cons]
  have hred : ∀ doc : List (Int × String),
      beautifyFromDoc fill vN rV "python" false true doc =
        (let ls := _cleanup_lines (((_wrap_lines fill doc (PyUnindent.bool true)).filter
            (fun p => p.1 == 1)).map Prod.snd)
         let output := joinNL ls
         if endsWithNL output then output else output ++ "\n") := fun _ => rfl
  rw [hred]
  simp only [hfil]
  decide
